import Mathlib

/-!
Shallow embedding of `src/guess-build-system.py`, a build-system detection
tool.  The script scans a directory (top level plus immediate
subdirectories) for filenames matching a fixed table of regular
expressions, and optionally extracts metadata from `package.json`.

The regular expressions of the pattern table use only literal characters,
the wildcard `.`, character classes such as `[Mm]`, optional groups
`(...)?`, alternation `(a|b)`, and the Kleene star in `.*`, all wrapped in
`^...$` anchors and compiled with `re.IGNORECASE`.  We embed that fragment
as the inductive `Regex` below with a Brzozowski-derivative matcher.
Python semantics that the embedding reproduces:
  * `re.match` anchors at the start of the string only; the final `$`
    matches at the end of the string **or just before a newline at the end
    of the string** (Python `re` documentation for `$`);
  * `.` matches any character except `\n` (no `re.DOTALL`);
  * `re.IGNORECASE` folds case; all pattern literals are ASCII, so ASCII
    case folding is modelled.
-/

namespace GuessBuild

/-- Regular-expression fragment used by the pattern table of
`BuildSystemDetector.__init__` (src lines 48–65). -/
inductive Regex where
  | emp : Regex
  | eps : Regex
  | any : Regex
  | ch : Char → Regex
  | cls : List Char → Regex
  | seq : Regex → Regex → Regex
  | alt : Regex → Regex → Regex
  | star : Regex → Regex
deriving DecidableEq

/-- ASCII lower-casing on code points, used to model `re.IGNORECASE`
(all pattern literals in the table are ASCII). -/
def lowerNat (c : Char) : Nat :=
  if 65 ≤ c.toNat && c.toNat ≤ 90 then c.toNat + 32 else c.toNat

/-- Case-insensitive character comparison (ASCII folding). -/
def charEqCI (a b : Char) : Bool := lowerNat a == lowerNat b

/-- Does the regex accept the empty string? -/
def nullable : Regex → Bool
  | .emp => false
  | .eps => true
  | .any => false
  | .ch _ => false
  | .cls _ => false
  | .seq a b => nullable a && nullable b
  | .alt a b => nullable a || nullable b
  | .star _ => true

/-- Smart sequencing constructor (keeps derivatives small). -/
def mkSeq : Regex → Regex → Regex
  | .emp, _ => .emp
  | _, .emp => .emp
  | .eps, b => b
  | a, .eps => a
  | a, b => .seq a b

/-- Smart alternation constructor (keeps derivatives small). -/
def mkAlt : Regex → Regex → Regex
  | .emp, b => b
  | a, .emp => a
  | a, b => .alt a b

/-- Brzozowski derivative of a regex by one input character.  The `any`
case excludes `\n` (Python `.` without `re.DOTALL`); character cases fold
case (`re.IGNORECASE`). -/
def deriv : Regex → Char → Regex
  | .emp, _ => .emp
  | .eps, _ => .emp
  | .any, c => if c = '\n' then .emp else .eps
  | .ch a, c => if charEqCI a c then .eps else .emp
  | .cls cs, c => if cs.any (fun a => charEqCI a c) then .eps else .emp
  | .seq a b, c =>
      if nullable a then mkAlt (mkSeq (deriv a c) b) (deriv b c)
      else mkSeq (deriv a c) b
  | .alt a b, c => mkAlt (deriv a c) (deriv b c)
  | .star a, c => mkSeq (deriv a c) (.star a)

/-- Full-string acceptance: the regex matches the entire character list. -/
def accepts (r : Regex) (s : List Char) : Bool :=
  nullable (s.foldl deriv r)

/-- Embedding of `re.match(pattern, name, re.IGNORECASE)` for a source
pattern of the form `^R$` with core `R := r` (src line 89).  `re.match`
anchors at the start; the engine matches `R` against some prefix
`s.take k` and then `$` must hold at position `k`, i.e. `k` is the end of
the string, or the position just before a final newline. -/
def reMatchL (r : Regex) (s : List Char) : Bool :=
  (List.range (s.length + 1)).any fun k =>
    accepts r (s.take k) &&
      (k == s.length || ((k + 1 == s.length) && (s.getLast? == some '\n')))

/-- `reMatchL` on a Lean `String`. -/
def reMatch (r : Regex) (s : String) : Bool := reMatchL r s.data

/-- Modelled from the spec: "A pattern matches a FileEntry when the
entry's name fully matches the pattern using case-insensitive matching
anchored to the whole filename (not a substring search)" — whole-string
acceptance of the pattern core. -/
def wholeNameMatch (r : Regex) (s : List Char) : Bool := accepts r s

/-- Sequence of case-insensitive literal characters (regex `abc` with all
characters escaped/literal). -/
def lits (s : String) : Regex :=
  s.data.foldr (fun c r => Regex.seq (.ch c) r) .eps

/-- Optional group `(...)?`. -/
def opt (r : Regex) : Regex := Regex.alt r .eps

/-- `^pom\.xml$` (Maven). -/
def patMaven : Regex := lits "pom.xml"

/-- `^build\.gradle(\.kts)?$`. -/
def patGradleBuild : Regex := .seq (lits "build.gradle") (opt (lits ".kts"))

/-- `^package(-lock)?\.json$`. -/
def patNpmPackage : Regex :=
  .seq (lits "package") (.seq (opt (lits "-lock")) (lits ".json"))

/-- `^requirements.*\.txt$`. -/
def patRequirements : Regex :=
  .seq (lits "requirements") (.seq (.star .any) (lits ".txt"))

/-- `^[Mm]akefile$`. -/
def patMake : Regex := .seq (.cls ['M', 'm']) (lits "akefile")

/-- `^Cargo\.(toml|lock)$`. -/
def patCargo : Regex := .seq (lits "Cargo.") (.alt (lits "toml") (lits "lock"))

/-- `^composer\.(json|lock)$`. -/
def patComposer : Regex :=
  .seq (lits "composer.") (.alt (lits "json") (lits "lock"))

/-- `^BUILD(\.bazel)?$`. -/
def patBazelBuild : Regex := .seq (lits "BUILD") (opt (lits ".bazel"))

/-- `^go\.(mod|sum)$`. -/
def patGo : Regex := .seq (lits "go.") (.alt (lits "mod") (lits "sum"))

/-- `^.*\.(lpi|lpr|lpk)$` (Lazarus). -/
def patLazarus : Regex :=
  .seq (.star .any)
    (.seq (.ch '.') (.alt (lits "lpi") (.alt (lits "lpr") (lits "lpk"))))

/-- The pattern table `self.build_systems` of
`BuildSystemDetector.__init__` (src lines 48–65), in declaration order. -/
def buildSystems : List (String × List Regex) :=
  [ ("Maven", [patMaven]),
    ("Gradle", [patGradleBuild, lits "settings.gradle", lits "gradlew"]),
    ("npm", [patNpmPackage, lits "npm-shrinkwrap.json"]),
    ("Yarn", [lits "yarn.lock"]),
    ("Python/pip", [patRequirements, lits "setup.py", lits "pyproject.toml"]),
    ("Poetry", [lits "poetry.lock"]),
    ("CMake", [lits "CMakeLists.txt"]),
    ("Make", [patMake]),
    ("Cargo (Rust)", [patCargo]),
    ("Composer (PHP)", [patComposer]),
    ("Bazel", [lits "WORKSPACE", patBazelBuild]),
    ("Ant", [lits "build.xml"]),
    ("sbt (Scala)", [lits "build.sbt"]),
    ("Go Modules", [patGo]),
    ("Lazarus", [patLazarus]),
    ("SCons", [lits "SConstruct", lits "SConscript"]) ]

/-- A file collected by the scan: `relPath` models `str(f)` (the path of
the `Path` object relative to the scanned directory, since the scan runs
with `directory='.'`), `name` models `f.name` (the bare filename used for
pattern matching). -/
structure ScanFile where
  relPath : String
  name : String
deriving DecidableEq

/-- One entry of the `detected_systems` list built by
`detect_build_system` (src lines 92–95): the build-system name and the
files matched by the first satisfied pattern. -/
structure Match where
  system : String
  found_files : List ScanFile
deriving DecidableEq

/-- The inner loop of `detect_build_system` (src lines 86–96): try the
patterns of one build system in order; on the first pattern whose list of
matching files is non-empty, return those files and stop (`break`). -/
def firstMatch : List Regex → List ScanFile → Option (List ScanFile)
  | [], _ => none
  | p :: ps, files =>
      if (files.filter fun f => reMatch p f.name) = [] then
        firstMatch ps files
      else
        some (files.filter fun f => reMatch p f.name)

/-- The pattern-matching phase of `detect_build_system` (src lines
85–98): iterate the pattern table in order, recording a `Match` for each
system whose first satisfied pattern matched at least one file. -/
def detect_build_system (tbl : List (String × List Regex))
    (files : List ScanFile) : List Match :=
  tbl.filterMap fun e => (firstMatch e.2 files).map fun ms => ⟨e.1, ms⟩

/-- A filesystem entry as seen by `Path.iterdir`: a regular file, a
directory (with a flag saying whether listing it succeeds, and its own
entries), or anything else (`is_file()` and `is_dir()` both false).
Entries behind symlinks are classified by what `is_file`/`is_dir` report
after following the link, matching `pathlib` defaults. -/
inductive Entry where
  | file (name : String)
  | dir (name : String) (readable : Bool) (entries : List Entry)
  | other (name : String)

/-- The state of the scanned directory itself: `iterdir` on it raises
`FileNotFoundError`, `NotADirectoryError` or `PermissionError`, or
succeeds with a list of entries. -/
inductive RootDir where
  | missing
  | notDir
  | unreadable
  | ok (entries : List Entry)

/-- Python exceptions that the script can let escape, plus the one it
catches.  `json.JSONDecodeError` is represented implicitly by the
`ManifestFile.invalidJson` case being swallowed. -/
inductive PyError where
  | fileNotFound
  | notADirectory
  | permissionDenied
  | unicodeDecodeError
deriving DecidableEq

/-- The regular files directly inside a list of entries, with their
`str(f)` path built from `pre` (src lines 78 and 82: `f for f in
d.iterdir() if f.is_file()`). -/
def filesOf (es : List Entry) (pre : String) : List ScanFile :=
  es.filterMap fun e =>
    match e with
    | .file n => some ⟨pre ++ n, n⟩
    | _ => none

/-- The subdirectory phase of the scan (src lines 80–82): for each
immediate subdirectory, list its regular files; listing an unreadable
subdirectory raises `PermissionError`, which propagates and aborts the
whole scan. -/
def subdirFilesE : List Entry → Except PyError (List ScanFile)
  | [] => .ok []
  | .dir n true sub :: rest =>
      (subdirFilesE rest).map fun r => filesOf sub (n ++ "/") ++ r
  | .dir _ false _ :: _ => .error .permissionDenied
  | .file _ :: rest => subdirFilesE rest
  | .other _ :: rest => subdirFilesE rest

/-- The file-collection phase of `detect_build_system` (src lines 76–82):
top-level regular files first, then the regular files of each immediate
subdirectory. -/
def collectEntries (es : List Entry) : Except PyError (List ScanFile) :=
  (subdirFilesE es).map fun subs => filesOf es "" ++ subs

/-- File collection including the errors raised by listing the scanned
directory itself (src line 78, `dir_path.iterdir()`). -/
def collectFromRoot : RootDir → Except PyError (List ScanFile)
  | .missing => .error .fileNotFound
  | .notDir => .error .notADirectory
  | .unreadable => .error .permissionDenied
  | .ok es => collectEntries es

/-- All regular files anywhere in the tree, paired with their nesting
depth (`1` = directly in the scanned directory, `2` = in an immediate
subdirectory, and so on), with full relative paths.  Used to state the
depth-2 scan boundary. -/
def filesDepth : List Entry → String → Nat → List (ScanFile × Nat)
  | [], _, _ => []
  | .file n :: rest, pre, d => (⟨pre ++ n, n⟩, d) :: filesDepth rest pre d
  | .dir n _ sub :: rest, pre, d =>
      filesDepth sub (pre ++ n ++ "/") (d + 1) ++ filesDepth rest pre d
  | .other _ :: rest, pre, d => filesDepth rest pre d

/-- Is some immediate subdirectory unreadable? -/
def hasUnreadableSubdir : List Entry → Bool
  | [] => false
  | .dir _ false _ :: _ => true
  | _ :: rest => hasUnreadableSubdir rest

/-- Modelled from the spec: "directory does not exist, is not a
directory, or is not readable → fails with FilesystemError;
permission-denied on a subdirectory is escalated the same way". -/
def specScanFails : RootDir → Bool
  | .missing => true
  | .notDir => true
  | .unreadable => true
  | .ok es => hasUnreadableSubdir es

/-- The parsed contents of a well-formed `package.json` whose top level
is an object: the optional `name` and `version` values and the optional
`dependencies` mapping (an association list in document order). -/
structure ManifestData where
  name : Option String
  version : Option String
  dependencies : Option (List (String × String))
deriving DecidableEq

/-- The state of `<directory>/package.json` as the script observes it:
absent (`exists()` false), unreadable (`open` raises `OSError`), not
decodable as text (`f.read()` inside `json.load` raises
`UnicodeDecodeError`), decodable text that is not valid JSON (`json.load`
raises `json.JSONDecodeError` — the only exception the script catches),
or a well-formed object manifest. -/
inductive ManifestFile where
  | absent
  | unreadable
  | undecodable
  | invalidJson
  | valid (d : ManifestData)

/-- The fields of the `package_info` dictionary when `package.json`
parsed: the three keys set on src lines 113–115. -/
structure PackageInfoData where
  name : String
  version : String
  dependencies : List String
deriving DecidableEq

/-- The `package_info` dictionary of `detect_package_type`: `none`
models the empty dict, `some d` the dict with all three keys. -/
abbrev PackageInfo := Option PackageInfoData

/-- `detect_package_type` (src lines 100–119): absent manifest → empty
dict; `json.JSONDecodeError` → caught (`pass`) → empty dict; any other
exception (`OSError` from `open`, `UnicodeDecodeError` from decoding)
propagates; a parsed object manifest yields `name`/`version` defaulted to
"Unknown" and the key list of the `dependencies` mapping. -/
def detect_package_type : ManifestFile → Except PyError PackageInfo
  | .absent => .ok none
  | .unreadable => .error .permissionDenied
  | .undecodable => .error .unicodeDecodeError
  | .invalidJson => .ok none
  | .valid d =>
      .ok (some ⟨d.name.getD "Unknown", d.version.getD "Unknown",
        (d.dependencies.getD []).map Prod.fst⟩)

/-- The shared part of `main` (src lines 128–138): scan, detect, return
early when nothing was detected (`package_info` never computed), else
compute the package info.  The result pairs the detected matches with
`none` (package info not computed) or `some pi`. -/
def run (rd : RootDir) (mf : ManifestFile) :
    Except PyError (List Match × Option PackageInfo) :=
  match collectFromRoot rd with
  | .error e => .error e
  | .ok files =>
      if (detect_build_system buildSystems files).isEmpty then
        .ok (detect_build_system buildSystems files, none)
      else
        match detect_package_type mf with
        | .error e => .error e
        | .ok pi => .ok (detect_build_system buildSystems files, some pi)

/-- The JSON document of `--json` mode: `systems` with `name` and `files`
(`str(f)`, i.e. relative paths), and `package_info`, where the outer
`none` models JSON `null` (src lines 133 and 142–151). -/
structure JsonOut where
  systems : List (String × List String)
  package_info : Option PackageInfo
deriving DecidableEq

/-- JSON-mode output of `main`: on the empty-detection early return the
document is `{"systems": [], "package_info": null}`; otherwise
`package_info` is the (possibly empty) dictionary. -/
def mainJson (rd : RootDir) (mf : ManifestFile) : Except PyError JsonOut :=
  (run rd mf).map fun r =>
    ⟨r.1.map fun m => (m.system, m.found_files.map (·.relPath)), r.2⟩

/-- The dependency lines of the text-mode package block (src lines
166–170): the first 5 entries (`value[:5]`), then "... and N more" when
the list is longer than 5. -/
def renderDepItems (deps : List String) : List String :=
  (deps.take 5).map (fun item => "  - " ++ item) ++
    (if 5 < deps.length then
      ["  ... and " ++ toString (deps.length - 5) ++ " more"]
    else [])

/-- The text-mode package-information block (src lines 162–172); the
empty dict is falsy, so it prints nothing. -/
def renderPackageInfo : PackageInfo → List String
  | none => []
  | some d =>
      ["", "Package information:", "name: " ++ d.name,
       "version: " ++ d.version, "", "dependencies:"] ++
        renderDepItems d.dependencies

/-- The per-system block of text mode (src lines 154–158). -/
def renderSystem (m : Match) : List String :=
  ["", "🔨 " ++ m.system, "  Found files:"] ++
    m.found_files.map fun f => "   - " ++ f.relPath

/-- Text-mode output of `main` as a list of printed lines (src lines
131–136 and 152–172). -/
def mainTextLines (rd : RootDir) (mf : ManifestFile) :
    Except PyError (List String) :=
  (run rd mf).map fun r =>
    if r.1.isEmpty then ["No known build system detected."]
    else
      ["Detected build systems:"] ++ r.1.flatMap renderSystem ++
        (match r.2 with
         | some pi => renderPackageInfo pi
         | none => [])

/-- Process exit status: `0` when `main` returns normally, `1` when an
uncaught exception terminates the interpreter. -/
def mainExit (rd : RootDir) (mf : ManifestFile) : Nat :=
  match run rd mf with
  | .ok _ => 0
  | .error _ => 1

/-! ### Helper lemmas -/

theorem firstMatch_cons_skip {p : Regex} {ps : List Regex}
    {files : List ScanFile}
    (h : files.filter (fun f => reMatch p f.name) = []) :
    firstMatch (p :: ps) files = firstMatch ps files := by
  simp [firstMatch, h]

theorem firstMatch_cons_hit {p : Regex} {ps : List Regex}
    {files : List ScanFile}
    (h : files.filter (fun f => reMatch p f.name) ≠ []) :
    firstMatch (p :: ps) files
      = some (files.filter fun f => reMatch p f.name) := by
  simp [firstMatch, h]

theorem firstMatch_eq_none {pats : List Regex} {files : List ScanFile} :
    firstMatch pats files = none ↔
      ∀ p ∈ pats, files.filter (fun f => reMatch p f.name) = [] := by
  induction pats with
  | nil => simp [firstMatch]
  | cons p ps ih =>
    by_cases h : (files.filter fun f => reMatch p f.name) = []
    · rw [firstMatch_cons_skip h, ih]
      constructor
      · intro hall q hq
        rcases List.mem_cons.mp hq with rfl | hq'
        · exact h
        · exact hall q hq'
      · intro hall q hq
        exact hall q (List.mem_cons_of_mem _ hq)
    · rw [firstMatch_cons_hit h]
      constructor
      · intro hsome
        exact absurd hsome (Option.some_ne_none _)
      · intro hall
        exact absurd (hall p (List.mem_cons_self _ _)) h

theorem firstMatch_append {pats0 : List Regex} (p : Regex)
    (post : List Regex) {files : List ScanFile}
    (hpre : ∀ q ∈ pats0, files.filter (fun f => reMatch q f.name) = [])
    (hp : files.filter (fun f => reMatch p f.name) ≠ []) :
    firstMatch (pats0 ++ p :: post) files
      = some (files.filter fun f => reMatch p f.name) := by
  induction pats0 with
  | nil => exact firstMatch_cons_hit hp
  | cons q qs ih =>
    rw [List.cons_append, firstMatch_cons_skip (hpre q (by simp))]
    exact ih fun q hq => hpre q (List.mem_cons_of_mem _ hq)

theorem firstMatch_some_subset {pats : List Regex} {files ms : List ScanFile}
    (h : firstMatch pats files = some ms) : ∀ f ∈ ms, f ∈ files := by
  induction pats with
  | nil => simp [firstMatch] at h
  | cons p ps ih =>
    by_cases hp : (files.filter fun f => reMatch p f.name) = []
    · rw [firstMatch_cons_skip hp] at h
      exact ih h
    · rw [firstMatch_cons_hit hp] at h
      cases h
      intro f hf
      exact (List.mem_filter.mp hf).1

theorem firstMatch_isSome_iff {pats : List Regex} {files : List ScanFile} :
    (firstMatch pats files).isSome = true ↔
      ∃ p ∈ pats, ∃ f ∈ files, reMatch p f.name = true := by
  induction pats with
  | nil => simp [firstMatch]
  | cons p ps ih =>
    by_cases hp : (files.filter fun f => reMatch p f.name) = []
    · rw [firstMatch_cons_skip hp, ih]
      have hforall := List.filter_eq_nil_iff.mp hp
      constructor
      · rintro ⟨q, hq, f, hf, hm⟩
        exact ⟨q, List.mem_cons_of_mem _ hq, f, hf, hm⟩
      · rintro ⟨q, hq, f, hf, hm⟩
        rcases List.mem_cons.mp hq with rfl | hq
        · exact absurd hm (hforall f hf)
        · exact ⟨q, hq, f, hf, hm⟩
    · rw [firstMatch_cons_hit hp]
      simp only [Option.isSome_some, true_iff]
      rcases List.exists_mem_of_ne_nil _ hp with ⟨f, hf⟩
      exact ⟨p, List.mem_cons_self _ _, f, (List.mem_filter.mp hf).1,
        (List.mem_filter.mp hf).2⟩

theorem mem_detect_system {tbl : List (String × List Regex)}
    {files : List ScanFile} {m : Match}
    (h : m ∈ detect_build_system tbl files) : m.system ∈ tbl.map Prod.fst := by
  rcases List.mem_filterMap.mp h with ⟨e, he, hstep⟩
  rcases Option.map_eq_some'.mp hstep with ⟨ms, _, hm⟩
  rw [← hm]
  exact List.mem_map.mpr ⟨e, he, rfl⟩

theorem mem_detect_files {tbl : List (String × List Regex)}
    {files : List ScanFile} {m : Match}
    (h : m ∈ detect_build_system tbl files) :
    ∀ f ∈ m.found_files, f ∈ files := by
  rcases List.mem_filterMap.mp h with ⟨e, _, hstep⟩
  rcases Option.map_eq_some'.mp hstep with ⟨ms, hfm, hm⟩
  intro f hf
  rw [← hm] at hf
  exact firstMatch_some_subset hfm f hf

theorem detect_filter_eq {tbl : List (String × List Regex)}
    {files : List ScanFile} {sys : String} {pats : List Regex}
    (hnd : (tbl.map Prod.fst).Nodup) (hmem : (sys, pats) ∈ tbl) :
    (detect_build_system tbl files).filter (fun m => m.system == sys)
      = ((firstMatch pats files).map fun ms => Match.mk sys ms).toList := by
  induction tbl with
  | nil => simp at hmem
  | cons e rest ih =>
    have hnd' : (rest.map Prod.fst).Nodup := (List.nodup_cons.mp hnd).2
    have hne : e.1 ∉ rest.map Prod.fst := (List.nodup_cons.mp hnd).1
    rcases List.mem_cons.mp hmem with rfl | hmem'
    · have htail :
          (detect_build_system rest files).filter (fun m => m.system == sys)
            = [] := by
        apply List.filter_eq_nil_iff.mpr
        intro m hm
        simp only [beq_iff_eq]
        intro hsys
        exact hne (hsys ▸ mem_detect_system hm)
      simp only [detect_build_system, List.filterMap_cons]
      cases hfm : firstMatch pats files with
      | none =>
        simpa only [detect_build_system] using htail
      | some ms =>
        simp only [Option.map_some', List.filter_cons, beq_self_eq_true,
          if_pos, Option.toList_some]
        rw [List.cons_eq_cons]
        exact ⟨rfl, by simpa only [detect_build_system] using htail⟩
    · have hsysne : e.1 ≠ sys := by
        intro h
        exact hne (h ▸ List.mem_map.mpr ⟨(sys, pats), hmem', rfl⟩)
      simp only [detect_build_system, List.filterMap_cons]
      cases hfm : firstMatch e.2 files with
      | none => exact ih hnd' hmem'
      | some ms =>
        simp only [Option.map_some', List.filter_cons]
        rw [if_neg (by simpa using hsysne)]
        exact ih hnd' hmem'

theorem buildSystems_names_nodup : (buildSystems.map Prod.fst).Nodup := by
  decide

theorem detect_names_sublist (tbl : List (String × List Regex))
    (files : List ScanFile) :
    ((detect_build_system tbl files).map Match.system).Sublist
      (tbl.map Prod.fst) := by
  induction tbl with
  | nil => simp [detect_build_system]
  | cons e rest ih =>
    cases hfm : firstMatch e.2 files with
    | none =>
      have h1 : detect_build_system (e :: rest) files
          = detect_build_system rest files := by
        simp [detect_build_system, List.filterMap_cons, hfm]
      rw [h1, List.map_cons]
      exact ih.cons e.1
    | some ms =>
      have h1 : detect_build_system (e :: rest) files
          = ⟨e.1, ms⟩ :: detect_build_system rest files := by
        simp [detect_build_system, List.filterMap_cons, hfm]
      rw [h1, List.map_cons, List.map_cons]
      exact ih.cons₂ e.1

theorem filter_nil_perm {l l' : List ScanFile} (h : l.Perm l')
    (p : ScanFile → Bool) : l.filter p = [] ↔ l'.filter p = [] := by
  constructor
  · intro h0
    have hp := h.filter p
    rw [h0] at hp
    exact hp.symm.eq_nil
  · intro h0
    have hp := h.filter p
    rw [h0] at hp
    exact hp.eq_nil

theorem firstMatch_none_perm {pats : List Regex} {files files' : List ScanFile}
    (h : files.Perm files') :
    firstMatch pats files = none ↔ firstMatch pats files' = none := by
  rw [firstMatch_eq_none, firstMatch_eq_none]
  constructor <;> intro hall p hp
  · exact (filter_nil_perm h _).mp (hall p hp)
  · exact (filter_nil_perm h _).mpr (hall p hp)

theorem detect_names_perm (tbl : List (String × List Regex))
    {files files' : List ScanFile} (h : files.Perm files') :
    (detect_build_system tbl files).map Match.system
      = (detect_build_system tbl files').map Match.system := by
  induction tbl with
  | nil => rfl
  | cons e rest ih =>
    cases hfm : firstMatch e.2 files with
    | none =>
      have hfm' : firstMatch e.2 files' = none := (firstMatch_none_perm h).mp hfm
      have h1 : detect_build_system (e :: rest) files
          = detect_build_system rest files := by
        simp [detect_build_system, List.filterMap_cons, hfm]
      have h2 : detect_build_system (e :: rest) files'
          = detect_build_system rest files' := by
        simp [detect_build_system, List.filterMap_cons, hfm']
      rw [h1, h2]
      exact ih
    | some ms =>
      have hne : firstMatch e.2 files' ≠ none := by
        intro hc
        have hcontr := (firstMatch_none_perm h).mpr hc
        rw [hfm] at hcontr
        exact Option.noConfusion hcontr
      rcases Option.ne_none_iff_exists'.mp hne with ⟨ms', hms'⟩
      have h1 : detect_build_system (e :: rest) files
          = ⟨e.1, ms⟩ :: detect_build_system rest files := by
        simp [detect_build_system, List.filterMap_cons, hfm]
      have h2 : detect_build_system (e :: rest) files'
          = ⟨e.1, ms'⟩ :: detect_build_system rest files' := by
        simp [detect_build_system, List.filterMap_cons, hms']
      rw [h1, h2]
      simp only [List.map_cons]
      rw [ih]

theorem filesOf_depth {es : List Entry} {pre : String} {f : ScanFile}
    (d : Nat) (h : f ∈ filesOf es pre) : (f, d) ∈ filesDepth es pre d := by
  induction es with
  | nil => simp [filesOf] at h
  | cons e rest ih =>
    cases e with
    | file n =>
      have he : filesOf (.file n :: rest) pre
          = ⟨pre ++ n, n⟩ :: filesOf rest pre := rfl
      rw [he] at h
      simp only [filesDepth]
      rcases List.mem_cons.mp h with rfl | h'
      · exact List.mem_cons_self _ _
      · exact List.mem_cons_of_mem _ (ih h')
    | dir n r sub =>
      have he : filesOf (.dir n r sub :: rest) pre = filesOf rest pre := rfl
      rw [he] at h
      simp only [filesDepth]
      exact List.mem_append_right _ (ih h)
    | other n =>
      have he : filesOf (.other n :: rest) pre = filesOf rest pre := rfl
      rw [he] at h
      simp only [filesDepth]
      exact ih h

theorem subdirFiles_depth {es : List Entry} {subs : List ScanFile}
    {f : ScanFile} (hok : subdirFilesE es = .ok subs) (hf : f ∈ subs) :
    (f, 2) ∈ filesDepth es "" 1 := by
  induction es generalizing subs with
  | nil =>
    cases hok
    simp at hf
  | cons e rest ih =>
    cases e with
    | file n =>
      simp only [filesDepth]
      exact List.mem_cons_of_mem _ (ih hok hf)
    | other n =>
      simp only [filesDepth]
      exact ih hok hf
    | dir n r sub =>
      cases r with
      | false => exact Except.noConfusion hok
      | true =>
        have he : subdirFilesE (.dir n true sub :: rest)
            = (subdirFilesE rest).map fun r => filesOf sub (n ++ "/") ++ r :=
          rfl
        rw [he] at hok
        cases hrest : subdirFilesE rest with
        | error err =>
          rw [hrest] at hok
          exact Except.noConfusion hok
        | ok r0 =>
          rw [hrest] at hok
          have hsubs : filesOf sub (n ++ "/") ++ r0 = subs := by
            cases hok
            rfl
          rw [← hsubs] at hf
          simp only [filesDepth]
          rcases List.mem_append.mp hf with h1 | h2
          · exact List.mem_append_left _ (filesOf_depth 2 h1)
          · exact List.mem_append_right _ (ih hrest h2)

theorem collect_depth {es : List Entry} {files : List ScanFile} {f : ScanFile}
    (hok : collectEntries es = .ok files) (hf : f ∈ files) :
    (f, 1) ∈ filesDepth es "" 1 ∨ (f, 2) ∈ filesDepth es "" 1 := by
  unfold collectEntries at hok
  cases hsub : subdirFilesE es with
  | error err =>
    rw [hsub] at hok
    exact Except.noConfusion hok
  | ok subs =>
    rw [hsub] at hok
    have hfiles : filesOf es "" ++ subs = files := by
      cases hok
      rfl
    rw [← hfiles] at hf
    rcases List.mem_append.mp hf with h1 | h2
    · exact Or.inl (filesOf_depth 1 h1)
    · exact Or.inr (subdirFiles_depth hsub h2)

/-! ### Claims -/

/-- Claim C1, corrected.  Amended: a pattern matches a collected file
entry exactly when the whole filename matches the pattern
case-insensitively, or the filename ends in a newline and the filename
without that final newline matches as a whole (Python's `$` also matches
just before a trailing newline); substring matches never occur.  In
particular, `Makefile` and `makefile` land in the single `Make` match. -/
theorem spec_C1 :
    (∀ (r : Regex) (s : List Char),
      reMatchL r s
        = (wholeNameMatch r s ||
            ((s.getLast? == some '\n') && wholeNameMatch r s.dropLast)))
    ∧ detect_build_system buildSystems
        [⟨"Makefile", "Makefile"⟩, ⟨"makefile", "makefile"⟩]
        = [⟨"Make", [⟨"Makefile", "Makefile"⟩, ⟨"makefile", "makefile"⟩]⟩] := by
  constructor
  · intro r s
    rw [Bool.eq_iff_iff]
    simp only [reMatchL, wholeNameMatch, List.any_eq_true, List.mem_range,
      Bool.and_eq_true, Bool.or_eq_true, beq_iff_eq, Nat.lt_succ_iff]
    constructor
    · rintro ⟨k, hk, hacc, hend | ⟨hk1, hnl⟩⟩
      · left
        rwa [hend, List.take_length] at hacc
      · right
        refine ⟨hnl, ?_⟩
        rw [List.dropLast_eq_take]
        have hkval : k = s.length - 1 := by omega
        rwa [hkval] at hacc
    · rintro (hacc | ⟨hnl, hacc⟩)
      · exact ⟨s.length, le_refl _, by rwa [List.take_length], Or.inl rfl⟩
      · have hne : s ≠ [] := by
          intro h
          rw [h] at hnl
          simp at hnl
        have hpos : 1 ≤ s.length := by
          cases s with
          | nil => exact absurd rfl hne
          | cons a t => simp
        refine ⟨s.length - 1, by omega, ?_, Or.inr ⟨by omega, hnl⟩⟩
        rwa [List.dropLast_eq_take] at hacc
  · decide

/-- Claim C1 counterexample: the filename `"pom.xml\n"` (legal on POSIX)
is matched by the Maven pattern — and ends up in a Maven `Match` — even
though it does not match the pattern as a whole filename, because
Python's `$` also matches just before a trailing newline. -/
theorem spec_C1_cx :
    reMatchL patMaven "pom.xml\n".data = true
    ∧ wholeNameMatch patMaven "pom.xml\n".data = false
    ∧ detect_build_system buildSystems [⟨"pom.xml\n", "pom.xml\n"⟩]
        = [⟨"Maven", [⟨"pom.xml\n", "pom.xml\n"⟩]⟩] :=
  ⟨by decide, by decide, by decide⟩

/-- Claim C2, confirmed: for every build system of the pattern table, if
the patterns split as `pats0 ++ p :: post` where no pattern of `pats0`
matches any collected file and `p` matches at least one, then the output
contains exactly one `Match` for that system, holding exactly the files
matched by `p` (later patterns contribute nothing); and a `Match` for the
system exists if and only if some pattern of the system matches some
file. -/
theorem spec_C2 :
    ∀ (files : List ScanFile) (sys : String) (pats : List Regex),
      (sys, pats) ∈ buildSystems →
      ((∀ pats0 p post, pats = pats0 ++ p :: post →
          (∀ q ∈ pats0, files.filter (fun f => reMatch q f.name) = []) →
          files.filter (fun f => reMatch p f.name) ≠ [] →
          (detect_build_system buildSystems files).filter
              (fun m => m.system == sys)
            = [⟨sys, files.filter fun f => reMatch p f.name⟩])
        ∧ ((∃ m ∈ detect_build_system buildSystems files, m.system = sys) ↔
            ∃ p ∈ pats, ∃ f ∈ files, reMatch p f.name = true)) := by
  intro files sys pats hmem
  constructor
  · intro pats0 p post hsplit hpre hp
    rw [detect_filter_eq buildSystems_names_nodup hmem, hsplit,
      firstMatch_append p post hpre hp]
    rfl
  · rw [← firstMatch_isSome_iff]
    constructor
    · rintro ⟨m, hm, hsys⟩
      have hmf : m ∈ (detect_build_system buildSystems files).filter
          (fun m => m.system == sys) :=
        List.mem_filter.mpr ⟨hm, by simp [hsys]⟩
      rw [detect_filter_eq buildSystems_names_nodup hmem] at hmf
      cases hfm : firstMatch pats files with
      | none =>
        rw [hfm] at hmf
        simp at hmf
      | some ms => simp
    · intro hsome
      rcases Option.isSome_iff_exists.mp hsome with ⟨ms, hms⟩
      refine ⟨⟨sys, ms⟩, ?_, rfl⟩
      have heq : (detect_build_system buildSystems files).filter
          (fun m => m.system == sys) = [⟨sys, ms⟩] := by
        rw [detect_filter_eq buildSystems_names_nodup hmem, hms]
        rfl
      have hmem2 : (⟨sys, ms⟩ : Match) ∈
          (detect_build_system buildSystems files).filter
            (fun m => m.system == sys) := by
        rw [heq]
        exact List.mem_cons_self _ _
      exact (List.mem_filter.mp hmem2).1

/-- Claim C2 witness: a directory holding only `settings.gradle` — the
first Gradle pattern matches nothing, the second matches it, and the
single Gradle match holds exactly that file. -/
theorem spec_C2_witness :
    (detect_build_system buildSystems
        [⟨"settings.gradle", "settings.gradle"⟩]).filter
        (fun m => m.system == "Gradle")
      = [⟨"Gradle", [⟨"settings.gradle", "settings.gradle"⟩]⟩] := by
  have h := (spec_C2 [⟨"settings.gradle", "settings.gradle"⟩] "Gradle"
      [patGradleBuild, lits "settings.gradle", lits "gradlew"] (by decide)).1
      [patGradleBuild] (lits "settings.gradle") [lits "gradlew"] rfl
      (by decide) (by decide)
  exact h.trans (by decide)

/-- Claim C3, confirmed: every file of every `Match` occurs in the
scanned tree at depth 1 (directly in the directory) or depth 2 (directly
in an immediate subdirectory); moreover a concrete file nested at depth 3
is not even collected. -/
theorem spec_C3 :
    (∀ (es : List Entry) (files : List ScanFile),
        collectEntries es = .ok files →
        ∀ m ∈ detect_build_system buildSystems files, ∀ f ∈ m.found_files,
          (f, 1) ∈ filesDepth es "" 1 ∨ (f, 2) ∈ filesDepth es "" 1)
    ∧ collectEntries [.dir "a" true [.dir "b" true [.file "pom.xml"]]]
        = .ok []
    ∧ detect_build_system buildSystems [] = [] := by
  refine ⟨?_, rfl, rfl⟩
  intro es files hok m hm f hf
  exact collect_depth hok (mem_detect_files hm f hf)

/-- Claim C3 witness: applying the depth bound to a directory holding
`pom.xml` at top level and its Maven match. -/
theorem spec_C3_witness :
    (⟨"pom.xml", "pom.xml"⟩, 1) ∈ filesDepth [.file "pom.xml"] "" 1
    ∨ (⟨"pom.xml", "pom.xml"⟩, 2) ∈ filesDepth [.file "pom.xml"] "" 1 :=
  spec_C3.1 [.file "pom.xml"] [⟨"pom.xml", "pom.xml"⟩] rfl
    ⟨"Maven", [⟨"pom.xml", "pom.xml"⟩]⟩ (by decide)
    ⟨"pom.xml", "pom.xml"⟩ (by decide)

/-- Claim C4, confirmed: the order of the reported systems is invariant
under any permutation of the collected files; it is always a subsequence
of the pattern-table order; the empty output is produced for an empty
file list; and the table order runs from "Maven" to "SCons". -/
theorem spec_C4 :
    (∀ files files' : List ScanFile, files.Perm files' →
        (detect_build_system buildSystems files).map Match.system
          = (detect_build_system buildSystems files').map Match.system)
    ∧ (∀ files : List ScanFile,
        ((detect_build_system buildSystems files).map Match.system).Sublist
          (buildSystems.map Prod.fst))
    ∧ detect_build_system buildSystems [] = []
    ∧ buildSystems.map Prod.fst
        = ["Maven", "Gradle", "npm", "Yarn", "Python/pip", "Poetry", "CMake",
           "Make", "Cargo (Rust)", "Composer (PHP)", "Bazel", "Ant",
           "sbt (Scala)", "Go Modules", "Lazarus", "SCons"] :=
  ⟨fun _ _ h => detect_names_perm buildSystems h,
    fun files => detect_names_sublist buildSystems files, rfl, rfl⟩

/-- Claim C4 witness: reversing the enumeration order of `pom.xml` and
`go.mod` leaves the reported system order unchanged. -/
theorem spec_C4_witness :
    (detect_build_system buildSystems
        [⟨"pom.xml", "pom.xml"⟩, ⟨"go.mod", "go.mod"⟩]).map Match.system
      = (detect_build_system buildSystems
        [⟨"go.mod", "go.mod"⟩, ⟨"pom.xml", "pom.xml"⟩]).map Match.system :=
  spec_C4.1 _ _ (by decide)

theorem run_collect_err {rd : RootDir} {mf : ManifestFile} {e : PyError}
    (hc : collectFromRoot rd = .error e) : run rd mf = .error e := by
  unfold run
  rw [hc]

theorem run_collect_ok {rd : RootDir} {mf : ManifestFile}
    {files : List ScanFile} (hc : collectFromRoot rd = .ok files) :
    run rd mf =
      if (detect_build_system buildSystems files).isEmpty = true then
        .ok (detect_build_system buildSystems files, none)
      else
        match detect_package_type mf with
        | .error e => .error e
        | .ok pi => .ok (detect_build_system buildSystems files, some pi) := by
  unfold run
  rw [hc]

/-- Claim C5, corrected.  Amended: when `package.json` is absent, or is
decodable text that is not valid JSON (`json.JSONDecodeError`, the only
exception the script catches), `detect_package_type` yields the empty
`package_info` and the run completes; but a `package.json` that cannot be
opened or cannot be decoded as text raises an exception that is not
swallowed. -/
theorem spec_C5 :
    (∀ (rd : RootDir) (files : List ScanFile) (mf : ManifestFile),
        collectFromRoot rd = .ok files →
        (mf = .absent ∨ mf = .invalidJson) →
        run rd mf = .ok (detect_build_system buildSystems files,
          if (detect_build_system buildSystems files).isEmpty then none
          else some none))
    ∧ detect_package_type .absent = .ok none
    ∧ detect_package_type .invalidJson = .ok none
    ∧ detect_package_type .undecodable = .error .unicodeDecodeError
    ∧ detect_package_type .unreadable = .error .permissionDenied := by
  refine ⟨?_, rfl, rfl, rfl, rfl⟩
  intro rd files mf hc hmf
  rw [run_collect_ok hc]
  by_cases hd : (detect_build_system buildSystems files).isEmpty = true
  · rw [if_pos hd, if_pos hd]
  · rw [if_neg hd, if_neg hd]
    rcases hmf with rfl | rfl <;> rfl

/-- Claim C5 witness: a directory holding only an invalid-JSON
`package.json` — npm is detected, the parse failure is swallowed, and the
package info is the empty dictionary. -/
theorem spec_C5_witness :
    run (.ok [.file "package.json"]) .invalidJson
      = .ok ([⟨"npm", [⟨"package.json", "package.json"⟩]⟩], some none) := by
  have h := spec_C5.1 (.ok [.file "package.json"])
    [⟨"package.json", "package.json"⟩] .invalidJson rfl (Or.inr rfl)
  exact h.trans rfl

/-- Claim C5 counterexample: a `package.json` whose bytes do not decode
as text is "not well-formed structured data", yet the failure is not
swallowed: `json.load`'s `UnicodeDecodeError` is not a
`json.JSONDecodeError`, escapes the `except` clause, and aborts the run
with a non-zero exit. -/
theorem spec_C5_cx :
    run (.ok [.file "package.json"]) .undecodable
      = .error .unicodeDecodeError
    ∧ mainExit (.ok [.file "package.json"]) .undecodable = 1 :=
  ⟨rfl, rfl⟩

/-- `subdirFilesE` succeeds exactly when every immediate subdirectory is
readable. -/
theorem subdirFilesE_ok_iff {es : List Entry} :
    (∃ subs, subdirFilesE es = .ok subs) ↔ hasUnreadableSubdir es = false := by
  induction es with
  | nil => simp [subdirFilesE, hasUnreadableSubdir]
  | cons e rest ih =>
    cases e with
    | file n => exact ih
    | other n => exact ih
    | dir n r sub =>
      cases r with
      | false =>
        constructor
        · rintro ⟨subs, hsubs⟩
          exact Except.noConfusion hsubs
        · intro hu
          exact Bool.noConfusion hu
      | true =>
        show (∃ subs,
            (subdirFilesE rest).map (fun r => filesOf sub (n ++ "/") ++ r)
              = .ok subs) ↔ hasUnreadableSubdir rest = false
        cases hrest : subdirFilesE rest with
        | error err =>
          rw [hrest] at ih
          constructor
          · rintro ⟨subs, hsubs⟩
            exact Except.noConfusion hsubs
          · intro hu
            exact absurd (ih.mpr hu).choose_spec
              fun hc => Except.noConfusion hc
        | ok r0 =>
          rw [hrest] at ih
          constructor
          · intro _
            exact ih.mp ⟨r0, rfl⟩
          · intro _
            exact ⟨filesOf sub (n ++ "/") ++ r0, rfl⟩

/-- `collectFromRoot` succeeds exactly when the scan does not fail in the
spec's sense. -/
theorem collect_ok_iff {rd : RootDir} :
    (∃ files, collectFromRoot rd = .ok files) ↔ specScanFails rd = false := by
  cases rd with
  | missing => simp [collectFromRoot, specScanFails]
  | notDir => simp [collectFromRoot, specScanFails]
  | unreadable => simp [collectFromRoot, specScanFails]
  | ok es =>
    show (∃ files, collectEntries es = .ok files)
      ↔ hasUnreadableSubdir es = false
    rw [← subdirFilesE_ok_iff]
    unfold collectEntries
    constructor
    · rintro ⟨files, hf⟩
      cases hsub : subdirFilesE es with
      | error err =>
        rw [hsub] at hf
        exact Except.noConfusion hf
      | ok subs => exact ⟨subs, rfl⟩
    · rintro ⟨subs, hsub⟩
      refine ⟨filesOf es "" ++ subs, ?_⟩
      rw [hsub]
      rfl

/-- Claim C6, corrected.  Amended: the scan fails with a filesystem error
exactly when the target directory is missing, not a directory or
unreadable, or an immediate subdirectory cannot be listed; such a failure
propagates to a non-zero exit; and a successful scan exits 0 — regardless
of whether anything was detected — provided the `package.json` metadata
step does not itself raise (it runs only when something was detected, and
an unreadable or undecodable `package.json` makes it raise, also exiting
non-zero). -/
theorem spec_C6 :
    (∀ rd : RootDir,
        (∃ files, collectFromRoot rd = .ok files) ↔ specScanFails rd = false)
    ∧ (∀ (rd : RootDir) (mf : ManifestFile),
        specScanFails rd = true → mainExit rd mf = 1)
    ∧ (∀ (rd : RootDir) (mf : ManifestFile) (files : List ScanFile),
        collectFromRoot rd = .ok files →
        (mf = .absent ∨ mf = .invalidJson ∨ ∃ d, mf = .valid d) →
        mainExit rd mf = 0)
    ∧ (∀ (rd : RootDir) (files : List ScanFile),
        collectFromRoot rd = .ok files →
        detect_build_system buildSystems files = [] →
        ∀ mf : ManifestFile, mainExit rd mf = 0) := by
  refine ⟨fun rd => collect_ok_iff, ?_, ?_, ?_⟩
  · intro rd mf hfail
    unfold mainExit
    cases hc : collectFromRoot rd with
    | error e => rw [run_collect_err hc]
    | ok files =>
      exact absurd (collect_ok_iff.mp ⟨files, hc⟩) (by simp [hfail])
  · intro rd mf files hc hmf
    unfold mainExit
    rw [run_collect_ok hc]
    by_cases hd : (detect_build_system buildSystems files).isEmpty = true
    · rw [if_pos hd]
    · rw [if_neg hd]
      rcases hmf with rfl | rfl | ⟨d, rfl⟩ <;> rfl
  · intro rd files hc hdet mf
    unfold mainExit
    rw [run_collect_ok hc, hdet]
    rfl

/-- Claim C6 witness: a missing target directory exits non-zero. -/
theorem spec_C6_witness : mainExit .missing .absent = 1 :=
  spec_C6.2.1 .missing .absent rfl

/-- Claim C6 counterexample: a scan that succeeds (readable directory
holding `go.mod` and `package.json`, no unreadable subdirectory) still
exits non-zero when `package.json` cannot be decoded, contradicting "a
successful scan exits 0". -/
theorem spec_C6_cx :
    specScanFails (.ok [.file "go.mod", .file "package.json"]) = false
    ∧ mainExit (.ok [.file "go.mod", .file "package.json"]) .undecodable
        = 1 :=
  ⟨rfl, rfl⟩

/-- `run` returns either an empty detection with no package info, or a
non-empty detection with package info computed. -/
theorem run_ok_cases {rd : RootDir} {mf : ManifestFile}
    {r : List Match × Option PackageInfo} (h : run rd mf = .ok r) :
    (r.1 = [] ∧ r.2 = none) ∨ (r.1 ≠ [] ∧ ∃ pi, r.2 = some pi) := by
  cases hc : collectFromRoot rd with
  | error e =>
    rw [run_collect_err hc] at h
    exact Except.noConfusion h
  | ok files =>
    rw [run_collect_ok hc] at h
    by_cases hd : (detect_build_system buildSystems files).isEmpty = true
    · rw [if_pos hd] at h
      cases h
      exact Or.inl ⟨List.isEmpty_iff.mp hd, rfl⟩
    · rw [if_neg hd] at h
      cases hp : detect_package_type mf with
      | error e =>
        rw [hp] at h
        exact Except.noConfusion h
      | ok pi =>
        rw [hp] at h
        cases h
        refine Or.inr ⟨?_, pi, rfl⟩
        intro hnil
        apply hd
        rw [show detect_build_system buildSystems files = [] from hnil]
        rfl

/-- Claim C7, confirmed: whenever JSON mode emits a document, its
`package_info` is `null` exactly when its `systems` list is empty. -/
theorem spec_C7 :
    ∀ (rd : RootDir) (mf : ManifestFile) (out : JsonOut),
      mainJson rd mf = .ok out → (out.package_info = none ↔ out.systems = []) := by
  intro rd mf out h
  unfold mainJson at h
  cases hr : run rd mf with
  | error e =>
    rw [hr] at h
    exact Except.noConfusion h
  | ok r =>
    rw [hr] at h
    have hout : out
        = ⟨r.1.map fun m => (m.system, m.found_files.map (·.relPath)), r.2⟩ :=
      (Except.ok.inj h).symm
    subst hout
    rcases run_ok_cases hr with ⟨h1, h2⟩ | ⟨h1, pi, h2⟩
    · simp [h1, h2]
    · simp [List.map_eq_nil_iff, h1, h2]

/-- Claim C7 witness: the empty directory produces the document with
empty `systems` and `null` `package_info`, for which the equivalence is
checked. -/
theorem spec_C7_witness :
    mainJson (.ok []) .absent = .ok ⟨[], none⟩
    ∧ (((⟨[], none⟩ : JsonOut).package_info = none) ↔
        ((⟨[], none⟩ : JsonOut).systems = [])) :=
  ⟨rfl, spec_C7 (.ok []) .absent ⟨[], none⟩ rfl⟩

/-- Claim C8, confirmed: the text-mode dependency block shows the first
five dependency names in declaration order — all of them when there are
at most five — and appends "... and N more" with `N = length - 5` exactly
when the list is longer than five; with six dependencies the suffix says
"1 more"; and the block appears at the end of the package-information
lines. -/
theorem spec_C8 :
    (∀ deps : List String, deps.length ≤ 5 →
        renderDepItems deps = deps.map fun item => "  - " ++ item)
    ∧ (∀ deps : List String, 5 < deps.length →
        renderDepItems deps
          = (deps.take 5).map (fun item => "  - " ++ item)
            ++ ["  ... and " ++ toString (deps.length - 5) ++ " more"])
    ∧ renderDepItems ["a", "b", "c", "d", "e", "f"]
        = ["  - a", "  - b", "  - c", "  - d", "  - e", "  ... and 1 more"]
    ∧ (∀ d : PackageInfoData, ∃ hdr, renderPackageInfo (some d)
        = hdr ++ renderDepItems d.dependencies) := by
  refine ⟨?_, ?_, by decide, fun d => ⟨_, rfl⟩⟩
  · intro deps h
    unfold renderDepItems
    rw [if_neg (by omega), List.append_nil, List.take_of_length_le h]
  · intro deps h
    unfold renderDepItems
    rw [if_pos h]

/-- Claim C8 witness: a single dependency is shown in full with no
truncation suffix. -/
theorem spec_C8_witness : renderDepItems ["x"] = ["  - x"] :=
  (spec_C8.1 ["x"] (by decide)).trans rfl

/-- Claim C9, confirmed: whatever its relative path, a scan that collects
exactly one file named `Cargo.toml` yields exactly one `Match`, for
"Cargo (Rust)", containing that file; and a directory whose only entry is
the file `Cargo.toml` collects exactly that file. -/
theorem spec_C9 :
    (∀ rp : String,
      detect_build_system buildSystems [⟨rp, "Cargo.toml"⟩]
        = [⟨"Cargo (Rust)", [⟨rp, "Cargo.toml"⟩]⟩])
    ∧ collectEntries [.file "Cargo.toml"]
        = .ok [⟨"Cargo.toml", "Cargo.toml"⟩] :=
  ⟨fun _ => rfl, rfl⟩

theorem filter_name_map (p : Regex) (files : List ScanFile)
    (g : ScanFile → String) :
    ((files.map fun f => (⟨g f, f.name⟩ : ScanFile)).filter
        fun f => reMatch p f.name)
      = (files.filter fun f => reMatch p f.name).map fun f => ⟨g f, f.name⟩ := by
  rw [List.filter_map]
  rfl

theorem firstMatch_name_map (pats : List Regex) (files : List ScanFile)
    (g : ScanFile → String) :
    firstMatch pats (files.map fun f => ⟨g f, f.name⟩)
      = (firstMatch pats files).map (List.map fun f => ⟨g f, f.name⟩) := by
  induction pats with
  | nil => rfl
  | cons p ps ih =>
    by_cases hp : (files.filter fun f => reMatch p f.name) = []
    · rw [firstMatch_cons_skip (by rw [filter_name_map, hp]; rfl),
        firstMatch_cons_skip hp, ih]
    · rw [firstMatch_cons_hit
          (by rw [filter_name_map]
              exact fun hc => hp (List.map_eq_nil_iff.mp hc)),
        firstMatch_cons_hit hp, filter_name_map]
      rfl

theorem detect_name_map (tbl : List (String × List Regex))
    (files : List ScanFile) (g : ScanFile → String) :
    detect_build_system tbl (files.map fun f => ⟨g f, f.name⟩)
      = (detect_build_system tbl files).map
          fun m => ⟨m.system, m.found_files.map fun f => ⟨g f, f.name⟩⟩ := by
  induction tbl with
  | nil => rfl
  | cons e rest ih =>
    simp only [detect_build_system, List.filterMap_cons] at ih ⊢
    rw [firstMatch_name_map]
    cases firstMatch e.2 files with
    | none => exact ih
    | some ms =>
      simp only [Option.map_some', List.map_cons]
      rw [ih]

theorem filesOf_src {es : List Entry} {pre : String} {f : ScanFile}
    (h : f ∈ filesOf es pre) :
    ∃ n, Entry.file n ∈ es ∧ f = ⟨pre ++ n, n⟩ := by
  induction es with
  | nil => simp [filesOf] at h
  | cons e rest ih =>
    cases e with
    | file n =>
      have he : filesOf (.file n :: rest) pre
          = ⟨pre ++ n, n⟩ :: filesOf rest pre := rfl
      rw [he] at h
      rcases List.mem_cons.mp h with rfl | h'
      · exact ⟨n, List.mem_cons_self _ _, rfl⟩
      · rcases ih h' with ⟨n', hn', hf⟩
        exact ⟨n', List.mem_cons_of_mem _ hn', hf⟩
    | dir n r sub =>
      rcases ih h with ⟨n', hn', hf⟩
      exact ⟨n', List.mem_cons_of_mem _ hn', hf⟩
    | other n =>
      rcases ih h with ⟨n', hn', hf⟩
      exact ⟨n', List.mem_cons_of_mem _ hn', hf⟩

theorem subdirFilesE_src {es : List Entry} {subs : List ScanFile}
    {f : ScanFile} (hok : subdirFilesE es = .ok subs) (hf : f ∈ subs) :
    ∃ n r sub m, Entry.dir n r sub ∈ es ∧ Entry.file m ∈ sub
      ∧ f = ⟨n ++ "/" ++ m, m⟩ := by
  induction es generalizing subs with
  | nil =>
    cases hok
    simp at hf
  | cons e rest ih =>
    cases e with
    | file n =>
      rcases ih hok hf with ⟨n', r', sub', m, h1, h2, h3⟩
      exact ⟨n', r', sub', m, List.mem_cons_of_mem _ h1, h2, h3⟩
    | other n =>
      rcases ih hok hf with ⟨n', r', sub', m, h1, h2, h3⟩
      exact ⟨n', r', sub', m, List.mem_cons_of_mem _ h1, h2, h3⟩
    | dir n r sub =>
      cases r with
      | false => exact Except.noConfusion hok
      | true =>
        have he : subdirFilesE (.dir n true sub :: rest)
            = (subdirFilesE rest).map fun r => filesOf sub (n ++ "/") ++ r :=
          rfl
        rw [he] at hok
        cases hrest : subdirFilesE rest with
        | error err =>
          rw [hrest] at hok
          exact Except.noConfusion hok
        | ok r0 =>
          rw [hrest] at hok
          have hsubs : filesOf sub (n ++ "/") ++ r0 = subs := by
            cases hok
            rfl
          rw [← hsubs] at hf
          rcases List.mem_append.mp hf with h1 | h2
          · rcases filesOf_src h1 with ⟨m, hm, hfm⟩
            exact ⟨n, true, sub, m, List.mem_cons_self _ _, hm, hfm⟩
          · rcases ih hrest h2 with ⟨n', r', sub', m, hh1, hh2, hh3⟩
            exact ⟨n', r', sub', m, List.mem_cons_of_mem _ hh1, hh2, hh3⟩

theorem collect_src {es : List Entry} {files : List ScanFile} {f : ScanFile}
    (hok : collectEntries es = .ok files) (hf : f ∈ files) :
    (Entry.file f.name ∈ es ∧ f.relPath = f.name)
    ∨ ∃ n r sub, Entry.dir n r sub ∈ es ∧ Entry.file f.name ∈ sub
        ∧ f.relPath = n ++ "/" ++ f.name := by
  unfold collectEntries at hok
  cases hsub : subdirFilesE es with
  | error err =>
    rw [hsub] at hok
    exact Except.noConfusion hok
  | ok subs =>
    rw [hsub] at hok
    have hfiles : filesOf es "" ++ subs = files := by
      cases hok
      rfl
    rw [← hfiles] at hf
    rcases List.mem_append.mp hf with h1 | h2
    · rcases filesOf_src h1 with ⟨n, hn, rfl⟩
      exact Or.inl ⟨hn, rfl⟩
    · rcases subdirFilesE_src hsub h2 with ⟨n, r, sub, m, h1, h2', rfl⟩
      exact Or.inr ⟨n, r, sub, h1, h2', rfl⟩

/-- Claim C10, confirmed: the files recorded in a `Match` carry their
path relative to the scanned directory — a top-level file is reported as
its bare name, a file in an immediate subdirectory as
`subdir ++ "/" ++ name` — while pattern matching depends only on the bare
filename: rewriting every file's relative path through any function `g`
rewrites the output matches pointwise and changes nothing else. -/
theorem spec_C10 :
    (∀ (tbl : List (String × List Regex)) (files : List ScanFile)
        (g : ScanFile → String),
      detect_build_system tbl (files.map fun f => ⟨g f, f.name⟩)
        = (detect_build_system tbl files).map
            fun m => ⟨m.system, m.found_files.map fun f => ⟨g f, f.name⟩⟩)
    ∧ (∀ (es : List Entry) (files : List ScanFile),
        collectEntries es = .ok files → ∀ f ∈ files,
          (Entry.file f.name ∈ es ∧ f.relPath = f.name)
          ∨ ∃ n r sub, Entry.dir n r sub ∈ es ∧ Entry.file f.name ∈ sub
              ∧ f.relPath = n ++ "/" ++ f.name)
    ∧ collectEntries [.dir "sub" true [.file "pom.xml"]]
        = .ok [⟨"sub/pom.xml", "pom.xml"⟩]
    ∧ detect_build_system buildSystems [⟨"sub/pom.xml", "pom.xml"⟩]
        = [⟨"Maven", [⟨"sub/pom.xml", "pom.xml"⟩]⟩] :=
  ⟨detect_name_map, fun _ _ hok _ hf => collect_src hok hf, rfl, rfl⟩

/-- Claim C10 witness: the provenance statement applied to a `pom.xml`
inside the immediate subdirectory `sub`. -/
theorem spec_C10_witness :
    (Entry.file "pom.xml" ∈ [Entry.dir "sub" true [Entry.file "pom.xml"]]
      ∧ ("sub/pom.xml" : String) = "pom.xml")
    ∨ ∃ n r sub, Entry.dir n r sub ∈ [Entry.dir "sub" true [.file "pom.xml"]]
        ∧ Entry.file "pom.xml" ∈ sub
        ∧ ("sub/pom.xml" : String) = n ++ "/" ++ "pom.xml" :=
  spec_C10.2.1 [.dir "sub" true [.file "pom.xml"]]
    [⟨"sub/pom.xml", "pom.xml"⟩] rfl ⟨"sub/pom.xml", "pom.xml"⟩
    (List.mem_cons_self _ _)

end GuessBuild
